import Mathlib

/-!
Verification of the cutting-stock PPO policy
(`student_submissions/s2353335_2352976_2352053_2352336_2353072/ProximalPolicyOptimization.py`).

A stock is a 2D occupancy grid of integer cells, `-1` meaning empty and any
other value an occupant identifier; following the source's own indexing
convention, a grid is a list of rows and the cell at column `x` of row `y` is
`stock[y][x]`, with width `shape[1]` (row length) and height `shape[0]`
(number of rows).  Real-valued quantities of the Python code are modelled as
exact rationals; the two floating-point operations that have no exact rational
counterpart (the actor/critic networks with categorical sampling, and the
float power `2.0 ** e`) are abstracted as explicit function parameters, so all
theorems below hold for every instantiation of those parameters.
-/

/-- Occupancy grid: list of rows, cell `-1` = empty, anything else = occupant id. -/
abbrev Grid := List (List Int)

/-- Product demand entry: `{size: (w, h), quantity: q}` of the observation. -/
structure Product where
  size : Nat × Nat
  quantity : Nat
deriving DecidableEq, Repr

/-- Observation consumed by the policy: ordered stocks and product demands. -/
structure Observation where
  stocks : List Grid
  products : List Product
deriving DecidableEq, Repr

/-- Decision output `{stock_idx, size, position}`; positions are integers since
`convert_action` can produce negative scaled coordinates. -/
structure Placement where
  stockIdx : Nat
  size : Nat × Nat
  position : Int × Int
deriving DecidableEq, Repr

/-- Integer half-open range `[a, b)` as a list, empty when `b ≤ a`
(mirrors Python `range(a, b)`). -/
def intRange (a b : Int) : List Int :=
  if b ≤ a then [] else (List.range (b - a).toNat).map (fun i => a + (i : Int))

/-- Concatenation of a list of lists in order. -/
def listJoin {α : Type} : List (List α) → List α
  | [] => []
  | l :: ls => l ++ listJoin ls

/-- Cell read `stock[y, x]`; out-of-range reads (which the source always guards
with explicit bounds checks before reading) default to `-1`. -/
def cellAt (g : Grid) (x y : Int) : Int :=
  if 0 ≤ x ∧ 0 ≤ y then (g.getD y.toNat []).getD x.toNat (-1) else -1

/-- Modelled from the spec: `_get_stock_size_` of the missing scaffold module
`policy.py` (base class `Policy`); "width, height (derived from grid shape)":
width is the row length, height the number of rows. -/
def stockSize (g : Grid) : Nat × Nat :=
  ((g.headD []).length, g.length)

/-- Count of occupied cells, `np.sum(stock != -1)`. -/
def usedCells (g : Grid) : Nat :=
  g.foldl (fun acc row => acc + (row.filter (fun c => c != -1)).length) 0

/-- Occupancy test `np.any(stock != -1)`. -/
def anyUsed (g : Grid) : Bool :=
  g.any (fun row => row.any (fun c => c != -1))

/-- Emptiness test `np.all(stock == -1)`. -/
def gridAllEmpty (g : Grid) : Bool :=
  g.all (fun row => row.all (fun c => c == -1))

/-- Modelled from the spec: `_can_place_` of the missing scaffold module
`policy.py` (base class `Policy`); "`can_place(stock, pos, size)`: true iff
rectangle fits within bounds and all covered cells are empty". -/
def canPlace (g : Grid) (pos : Int × Int) (size : Nat × Nat) : Bool :=
  let W := (g.headD []).length
  let H := g.length
  decide (0 ≤ pos.1) && decide (0 ≤ pos.2) &&
  decide (pos.1 + size.1 ≤ (W : Int)) && decide (pos.2 + size.2 ≤ (H : Int)) &&
  (List.range size.1).all (fun i =>
    (List.range size.2).all (fun j => cellAt g (pos.1 + i) (pos.2 + j) == -1))

/-- The no-overlap invariant claimed for every strategy: the returned rectangle
satisfies `can_place` on the stock it names. -/
def canPlaceP (obs : Observation) (p : Placement) : Prop :=
  canPlace (obs.stocks.getD p.stockIdx []) p.position p.size = true

/-- Halo scan `_count_adjacent_pieces(stock, pos_x, pos_y, size_w, size_h)`:
sums 2.0 when `dx in [0, size_w] or dy in [0, size_h]` (Python list
membership) and 0.25 otherwise, over occupied in-bounds halo cells. -/
def countAdjacentPieces (g : Grid) (x y : Int) (w h : Nat) : ℚ :=
  let W := (g.headD []).length
  let H := g.length
  (listJoin ((intRange (-1) ((w : Int) + 1)).map (fun dx =>
    (intRange (-1) ((h : Int) + 1)).map (fun dy => (dx, dy))))).foldl
    (fun acc d =>
      if 0 ≤ d.1 ∧ d.1 < (w : Int) ∧ 0 ≤ d.2 ∧ d.2 < (h : Int) then acc
      else
        let cx := x + d.1
        let cy := y + d.2
        if 0 ≤ cx ∧ cx < (W : Int) ∧ 0 ≤ cy ∧ cy < (H : Int) then
          if cellAt g cx cy != -1 then
            if d.1 = 0 ∨ d.1 = (w : Int) ∨ d.2 = 0 ∨ d.2 = (h : Int) then acc + 2
            else acc + 1/4
          else acc
        else acc) 0

/-- Corrected filled ratio `calculate_filled_ratio(observation)`: accumulate
used area and total area only over stocks with any occupied cell. -/
def filledRatioOf (obs : Observation) : ℚ :=
  let acc := obs.stocks.foldl
    (fun (a : Nat × Nat) stock =>
      if anyUsed stock then
        (a.1 + usedCells stock, a.2 + (stockSize stock).1 * (stockSize stock).2)
      else a) (0, 0)
  if 0 < acc.2 then (acc.1 : ℚ) / (acc.2 : ℚ) else 0

/-- Sum of occupied cells over stocks containing at least one occupied cell
(the spec's words for the numerator of the corrected filled ratio). -/
def specUsedArea (obs : Observation) : Nat :=
  ((obs.stocks.filter anyUsed).map usedCells).sum

/-- Sum of total areas over stocks containing at least one occupied cell
(the spec's words for the denominator of the corrected filled ratio). -/
def specTotalArea (obs : Observation) : Nat :=
  ((obs.stocks.filter anyUsed).map (fun g => (stockSize g).1 * (stockSize g).2)).sum

/-- Discount factor `self.gamma = 0.99`. -/
def ppoGamma : ℚ := 99/100

/-- GAE decay `self.gae_lambda = 0.95`. -/
def ppoLambda : ℚ := 19/20

/-- Generalized advantage estimation `compute_gae(rewards, values, dones)`:
iterate from the last index down, `delta = r + γ·V(t+1)·(1−d) − V(t)` with
`V(t+1) = 0` at the final index, `gae = delta + γ·λ·(1−d)·gae`. The incoming
accumulator at step `t` is the advantage already computed at `t+1`, which is
the head of the recursively computed suffix. -/
def computeGae : List ℚ → List ℚ → List ℚ → List ℚ
  | r :: rs, v :: vs, d :: ds =>
    let rest := computeGae rs vs ds
    let nextValue : ℚ := if rs.isEmpty then 0 else vs.headD 0
    let delta := r + ppoGamma * nextValue * (1 - d) - v
    (delta + ppoGamma * ppoLambda * (1 - d) * rest.headD 0) :: rest
  | _, _, _ => []

/-- A 5x5 stock whose only occupied cell is at column 0, row 2: it lies
directly left of cell (1,2) of the candidate 3x3 rectangle at position (1,1),
hence is orthogonally adjacent to the rectangle. -/
def c7Stock : Grid :=
  [[-1, -1, -1, -1, -1],
   [-1, -1, -1, -1, -1],
   [7, -1, -1, -1, -1],
   [-1, -1, -1, -1, -1],
   [-1, -1, -1, -1, -1]]

/-- C7: the claim says every orthogonally adjacent occupied halo cell
contributes 2.0, but `_count_adjacent_pieces` tests `dx in [0, size_w]`
(Python list membership, i.e. dx ∈ {0, w}) instead of the range 0 ≤ dx < w,
so the occupied cell orthogonally adjacent to the left side of the 3x3
rectangle at (1,1) contributes only 0.25: the total is 1/4, not 2. -/
theorem c7_adjacent_weight_eval :
    countAdjacentPieces c7Stock 1 1 3 3 = 1/4 ∧
    countAdjacentPieces c7Stock 1 1 3 3 ≠ 2 := by
  have h : countAdjacentPieces c7Stock 1 1 3 3 = 1/4 := by
    simp +decide [countAdjacentPieces, c7Stock, intRange, listJoin, cellAt, List.range_succ]
  refine ⟨h, ?_⟩
  rw [h]
  norm_num

/-- One fully empty n x n stock. -/
def emptyGrid (n : Nat) : Grid := List.replicate n (List.replicate n (-1 : Int))

/-- A 10x10 stock with exactly 50 occupied cells (top five rows). -/
def halfGrid10 : Grid :=
  List.replicate 5 (List.replicate 10 (1 : Int)) ++
  List.replicate 5 (List.replicate 10 (-1 : Int))

/-- A fully occupied 5x5 stock. -/
def fullGrid5 : Grid := List.replicate 5 (List.replicate 5 (1 : Int))

/-- The spec's three-stock scenario: one empty stock, one 50%-filled 10x10,
one 100%-filled 5x5. -/
def exObs3 : Observation := ⟨[emptyGrid 10, halfGrid10, fullGrid5], []⟩

/-- The fold of `calculate_filled_ratio` accumulates exactly the filtered sums
of the spec's formulation. -/
lemma filledRatioOf_eq_spec (obs : Observation) :
    filledRatioOf obs = (specUsedArea obs : ℚ) / (specTotalArea obs : ℚ) := by
  have key : ∀ (l : List Grid) (a : Nat × Nat),
      l.foldl (fun (a : Nat × Nat) stock =>
        if anyUsed stock then
          (a.1 + usedCells stock, a.2 + (stockSize stock).1 * (stockSize stock).2)
        else a) a =
      (a.1 + ((l.filter anyUsed).map usedCells).sum,
       a.2 + ((l.filter anyUsed).map (fun g => (stockSize g).1 * (stockSize g).2)).sum) := by
    intro l
    induction l with
    | nil => intro a; simp
    | cons g t ih =>
      intro a
      by_cases hg : anyUsed g = true
      · simp [List.foldl_cons, List.filter_cons, hg, ih, Prod.ext_iff]
        omega
      · simp [List.foldl_cons, List.filter_cons, hg, ih]
  unfold filledRatioOf specUsedArea specTotalArea
  rw [key]
  simp only [Nat.zero_add]
  by_cases h : 0 < ((obs.stocks.filter anyUsed).map
      (fun g => (stockSize g).1 * (stockSize g).2)).sum
  · rw [if_pos h]
  · rw [if_neg h]
    have hz : ((obs.stocks.filter anyUsed).map
        (fun g => (stockSize g).1 * (stockSize g).2)).sum = 0 := by omega
    rw [hz]
    norm_num

/-- C4: the corrected filled ratio equals the sum of occupied cells over the
sum of total areas restricted to stocks containing at least one occupied cell,
and on the spec's three-stock scenario it evaluates to (50+25)/(100+25) = 0.6. -/
theorem c4_corrected_filled_frac :
    (∀ obs : Observation,
       filledRatioOf obs = (specUsedArea obs : ℚ) / (specTotalArea obs : ℚ)) ∧
    filledRatioOf exObs3 = 3/5 := by
  refine ⟨filledRatioOf_eq_spec, ?_⟩
  have h1 : specUsedArea exObs3 = 75 := by decide
  have h2 : specTotalArea exObs3 = 125 := by decide
  rw [filledRatioOf_eq_spec, h1, h2]
  norm_num

/-- Indexing at 0 with default is the default-valued head. -/
lemma getD_zero_headD (l : List ℚ) (dflt : ℚ) : l.getD 0 dflt = l.headD dflt := by
  cases l <;> rfl

/-- The advantage list has the trajectory's length when rewards, values and
dones agree in length. -/
lemma computeGae_length :
    ∀ (rw vl dn : List ℚ), vl.length = rw.length → dn.length = rw.length →
      (computeGae rw vl dn).length = rw.length := by
  intro rw
  induction rw with
  | nil => intro vl dn _ _; cases vl <;> cases dn <;> simp [computeGae]
  | cons r rs ih =>
    intro vl dn hv hd
    cases vl with
    | nil => simp at hv
    | cons v vs =>
      cases dn with
      | nil => simp at hd
      | cons d ds =>
        simp only [computeGae, List.length_cons]
        rw [ih vs ds (by simpa using hv) (by simpa using hd)]

/-- Pointwise characterisation of `compute_gae`: the entry at `t` is
`delta(t) + γ·λ·(1−done(t))·advantage(t+1)` with the boundary conventions of
the source's backward loop. -/
lemma computeGae_getD :
    ∀ (rw vl dn : List ℚ), vl.length = rw.length → dn.length = rw.length →
      ∀ t, t < rw.length →
        (computeGae rw vl dn).getD t 0 =
          (rw.getD t 0
            + ppoGamma * (if t = rw.length - 1 then 0 else vl.getD (t+1) 0)
              * (1 - dn.getD t 0)
            - vl.getD t 0)
          + ppoGamma * ppoLambda * (1 - dn.getD t 0)
            * (if t = rw.length - 1 then 0 else (computeGae rw vl dn).getD (t+1) 0) := by
  intro rw
  induction rw with
  | nil => intro vl dn _ _ t ht; simp at ht
  | cons r rs ih =>
    intro vl dn hv hd t ht
    cases vl with
    | nil => simp at hv
    | cons v vs =>
      cases dn with
      | nil => simp at hd
      | cons d ds =>
        have hv' : vs.length = rs.length := by simpa using hv
        have hd' : ds.length = rs.length := by simpa using hd
        cases t with
        | zero =>
          cases rs with
          | nil =>
            cases vs with
            | nil =>
              cases ds with
              | nil => simp [computeGae]
              | cons d2 ds2 => simp at hd'
            | cons v2 vs2 => simp at hv'
          | cons r2 rs2 =>
            cases vs with
            | nil => simp at hv'
            | cons v2 vs2 =>
              cases ds with
              | nil => simp at hd'
              | cons d2 ds2 =>
                simp only [computeGae, List.getD_cons_zero, List.getD_cons_succ,
                  List.length_cons, List.isEmpty_cons]
                have hne : ¬ ((0 : Nat) = rs2.length + 1 + 1 - 1) := by omega
                rw [if_neg hne]
                simp [getD_zero_headD]
        | succ n =>
          have hn : n < rs.length := by simpa using Nat.lt_of_succ_lt_succ ht
          have := ih vs ds hv' hd' n hn
          simp only [computeGae, List.getD_cons_succ, List.length_cons]
          rw [this]
          have hiff : (n = rs.length - 1) ↔ (n + 1 = rs.length + 1 - 1) := by omega
          by_cases hc : n = rs.length - 1
          · rw [if_pos hc, if_pos (hiff.mp hc), if_pos hc, if_pos (hiff.mp hc)]
          · rw [if_neg hc, if_neg (fun h => hc (hiff.mpr h)),
              if_neg hc, if_neg (fun h => hc (hiff.mpr h))]

/-- C3: `compute_gae` satisfies exactly the claimed backward recurrence with
γ = 0.99 and λ = 0.95 (the advantage at `t` is `delta(t)` plus
`γ·λ·(1−done(t))` times the advantage at `t+1`, with `V(t+1) = 0` and
accumulator 0 at the final index), and a single-step trajectory with
done = 1 yields `advantage[0] = reward[0] − value[0]`. -/
theorem c3_gae_recurrence :
    (∀ (rw vl dn : List ℚ), vl.length = rw.length → dn.length = rw.length →
       (computeGae rw vl dn).length = rw.length ∧
       ∀ t, t < rw.length →
         (computeGae rw vl dn).getD t 0 =
           (rw.getD t 0
             + ppoGamma * (if t = rw.length - 1 then 0 else vl.getD (t+1) 0)
               * (1 - dn.getD t 0)
             - vl.getD t 0)
           + ppoGamma * ppoLambda * (1 - dn.getD t 0)
             * (if t = rw.length - 1 then 0 else (computeGae rw vl dn).getD (t+1) 0)) ∧
    (∀ r0 v0 : ℚ, computeGae [r0] [v0] [1] = [r0 - v0]) ∧
    ppoGamma = 99/100 ∧ ppoLambda = 95/100 := by
  refine ⟨fun rw vl dn hv hd => ⟨computeGae_length rw vl dn hv hd,
    computeGae_getD rw vl dn hv hd⟩, fun r0 v0 => ?_, rfl, by norm_num [ppoLambda]⟩
  simp [computeGae]

/-- Witness for C3 at a concrete two-step trajectory. -/
theorem c3_gae_recurrence_witness :
    (computeGae [1, 2] [3, 4] [0, 1]).length = ([1, 2] : List ℚ).length :=
  ((c3_gae_recurrence.1 [1, 2] [3, 4] [0, 1] (by simp) (by simp)).1)

/-- Largest remaining product, `_get_largest_product` (also inlined at the top
of `_get_structured_placement`): first product with positive quantity whose
area strictly exceeds all earlier ones; none when no positive-quantity product
has positive area. -/
def largestProduct (ps : List Product) : Option Product :=
  (ps.foldl
    (fun (acc : Option Product × Nat) pr =>
      if 0 < pr.quantity ∧ acc.2 < pr.size.1 * pr.size.2
      then (some pr, pr.size.1 * pr.size.2) else acc)
    (none, 0)).1

/-- First position of the candidate list accepted by `_can_place_`, as the
placement the strategy would return for it. -/
def firstFit (stockIdx : Nat) (stock : Grid) (size : Nat × Nat) :
    List (Int × Int) → Option Placement
  | [] => none
  | pos :: rest =>
    if canPlace stock pos size then some ⟨stockIdx, size, pos⟩
    else firstFit stockIdx stock size rest

/-- Candidate positions of `_get_structured_placement` for one stock: the four
corners (top-left, top-right, bottom-left, bottom-right) when the stock is
entirely empty, then the top, left, bottom and right edge-aligned positions. -/
def structCandidates (stock : Grid) (pw ph : Nat) : List (Int × Int) :=
  let W := (stockSize stock).1
  let H := (stockSize stock).2
  let corners : List (Int × Int) :=
    [(0, 0), ((W : Int) - pw, 0), (0, (H : Int) - ph), ((W : Int) - pw, (H : Int) - ph)]
  let top := (intRange 0 ((W : Int) - pw + 1)).map (fun x => (x, (0 : Int)))
  let leftE := (intRange 0 ((H : Int) - ph + 1)).map (fun y => ((0 : Int), y))
  let bottom := (intRange 0 ((W : Int) - pw + 1)).map (fun x => (x, (H : Int) - ph))
  let rightE := (intRange 0 ((H : Int) - ph + 1)).map (fun y => ((W : Int) - pw, y))
  (if gridAllEmpty stock then corners else []) ++ (top ++ leftE ++ bottom ++ rightE)

/-- Stock loop of `_get_structured_placement`: first stock index whose
candidate list contains a placeable position. -/
def structGo (obs : Observation) (pw ph : Nat) : List Nat → Option Placement
  | [] => none
  | i :: rest =>
    let stock := obs.stocks.getD i []
    match firstFit i stock (pw, ph) (structCandidates stock pw ph) with
    | some p => some p
    | none => structGo obs pw ph rest

/-- Structured placement strategy `_get_structured_placement(observation)`. -/
def structuredPlacement (obs : Observation) : Option Placement :=
  match largestProduct obs.products with
  | none => none
  | some lp => structGo obs lp.size.1 lp.size.2 (List.range obs.stocks.length)

/-- A placement found by `firstFit` names the given stock index and size and
passes `can_place` on the given stock. -/
lemma firstFit_sound {i : Nat} {stock : Grid} {size : Nat × Nat} :
    ∀ {l : List (Int × Int)} {p : Placement}, firstFit i stock size l = some p →
      p.stockIdx = i ∧ p.size = size ∧ canPlace stock p.position size = true := by
  intro l
  induction l with
  | nil => intro p h; simp [firstFit] at h
  | cons pos rest ih =>
    intro p h
    by_cases hc : canPlace stock pos size = true
    · simp only [firstFit, if_pos hc] at h
      cases h
      exact ⟨rfl, rfl, hc⟩
    · simp only [firstFit, if_neg hc] at h
      exact ih h

/-- Every placement returned by the structured strategy satisfies the
no-overlap invariant. -/
lemma structuredPlacement_sound (obs : Observation) (p : Placement)
    (h : structuredPlacement obs = some p) : canPlaceP obs p := by
  unfold structuredPlacement at h
  cases hl : largestProduct obs.products with
  | none => rw [hl] at h; exact absurd h (by simp)
  | some lp =>
    rw [hl] at h
    revert h
    generalize List.range obs.stocks.length = idxs
    induction idxs with
    | nil => intro h; simp [structGo] at h
    | cons i rest ih =>
      intro h
      simp only [structGo] at h
      cases hf : firstFit i (obs.stocks.getD i []) (lp.size.1, lp.size.2)
          (structCandidates (obs.stocks.getD i []) lp.size.1 lp.size.2) with
      | some q =>
        rw [hf] at h
        cases h
        obtain ⟨hidx, hsz, hcp⟩ := firstFit_sound hf
        unfold canPlaceP
        rw [hidx, hsz]
        exact hcp
      | none =>
        rw [hf] at h
        exact ih h

/-- List of occupied cell coordinates (x, y), row by row (`np.where(stock != -1)`
enumerates rows first, which leaves the minimum below unchanged). -/
def filledCellList (g : Grid) : List (Nat × Nat) :=
  listJoin ((List.range g.length).map (fun yy =>
    (List.range (g.headD []).length).filterMap (fun xx =>
      if (g.getD yy []).getD xx (-1) != -1 then some (xx, yy) else none)))

/-- Manhattan distance to the nearest occupied cell,
`_get_distance_to_filled(stock, pos_x, pos_y)`; 0 when the stock is empty. -/
def distanceToFilled (g : Grid) (x y : Int) : Nat :=
  match (filledCellList g).map (fun c => ((c.2 : Int) - y).natAbs + ((c.1 : Int) - x).natAbs) with
  | [] => 0
  | a :: rest => rest.foldl Nat.min a

/-- Count of distinct occupant identifiers covering fewer than 20 cells inside
a 3-cell-padded window, `_count_nearby_small_pieces`. -/
def countNearbySmallPieces (g : Grid) (x y : Int) (w h : Nat) : Nat :=
  let W := (g.headD []).length
  let H := g.length
  let xs := max 0 (x - 3)
  let xe := min (W : Int) (x + w + 3)
  let ys := max 0 (y - 3)
  let ye := min (H : Int) (y + h + 3)
  let vals := (listJoin ((intRange ys ye).map (fun ry =>
    (intRange xs xe).map (fun rx => cellAt g rx ry)))).filter (fun c => c != -1)
  ((vals.dedup).filter (fun id => vals.count id < 20)).length

/-- Pattern score `evaluate_placement_pattern(stock, pos_x, pos_y, size_w,
size_h)`: small pieces (< 20 cells) get corner/edge bonuses, clustering with
nearby small pieces, and a scatter penalty; larger pieces get edge-alignment
and corner bonuses plus a utilization term. -/
def evalPlacementPattern (g : Grid) (x y : Int) (w h : Nat) : ℚ :=
  let W := (stockSize g).1
  let H := (stockSize g).2
  if w * h < 20 then
    (if x = 0 ∧ y = 0 then (3 : ℚ) else if x = 0 ∨ y = 0 then 2 else 0)
    + (countNearbySmallPieces g x y w h : ℚ) * (3/2)
    - (distanceToFilled g x y : ℚ) * (1/2)
  else
    (if x = 0 ∨ x + w = (W : Int) then (2 : ℚ) else 0)
    + (if y = 0 ∨ y + h = (H : Int) then (2 : ℚ) else 0)
    + (if (x = 0 ∨ x + w = (W : Int)) ∧ (y = 0 ∨ y + h = (H : Int)) then (3 : ℚ) else 0)
    + ((usedCells g : ℚ) / ((W * H : Nat) : ℚ)) * 2

/-- The ten random position draws of one (stock, product, orientation) round
of `_get_random_valid_action`; the random source is an abstract stream
`rng : Nat → Nat × Nat` consumed one pair per draw, reduced into the ranges
`[0, W-pw]` and `[0, H-ph]` that `np.random.randint` would sample. Returns the
updated stream counter and the first position passing `_can_place_`. -/
def tenTries (rng : Nat → Nat × Nat) (stock : Grid) (pw ph W H : Nat) :
    Nat → Nat → Nat × Option (Nat × Nat)
  | k, 0 => (k, none)
  | k, n + 1 =>
    let draw := rng k
    let px := draw.1 % (W - pw + 1)
    let py := draw.2 % (H - ph + 1)
    if canPlace stock ((px : Int), (py : Int)) (pw, ph) then (k + 1, some (px, py))
    else tenTries rng stock pw ph W H (k + 1) n

/-- Iteration order of `_get_random_valid_action`: stocks outermost, then
positive-quantity products, then the original (and, when allowed, rotated)
orientation. -/
def randCombos (obs : Observation) (allowRotation : Bool) : List (Nat × Nat × Nat) :=
  listJoin ((List.range obs.stocks.length).map (fun si =>
    listJoin (obs.products.map (fun prod =>
      if 0 < prod.quantity then
        if allowRotation then
          [(si, prod.size.1, prod.size.2), (si, prod.size.2, prod.size.1)]
        else [(si, prod.size.1, prod.size.2)]
      else []))))

/-- Main loop of `_get_random_valid_action`: `np.random.randint(0, n)` raises
`ValueError` when `n ≤ 0`, i.e. when the orientation does not fit the stock in
either axis, which aborts the whole call. -/
def randGo (rng : Nat → Nat × Nat) (stocks : List Grid) :
    List (Nat × Nat × Nat) → Nat → Except String (Option Placement)
  | [], _ => .ok none
  | (si, pw, ph) :: rest, k =>
    let stock := stocks.getD si []
    let W := (stockSize stock).1
    let H := (stockSize stock).2
    if W < pw ∨ H < ph then .error "ValueError"
    else
      match tenTries rng stock pw ph W H k 10 with
      | (_, some pos) => .ok (some ⟨si, (pw, ph), ((pos.1 : Int), (pos.2 : Int))⟩)
      | (k2, none) => randGo rng stocks rest k2

/-- Random fallback `_get_random_valid_action(observation, allow_rotation)`. -/
def randomValidAction (rng : Nat → Nat × Nat) (obs : Observation)
    (allowRotation : Bool) : Except String (Option Placement) :=
  randGo rng obs.stocks (randCombos obs allowRotation) 0

/-- A position produced by the ten random draws passed `_can_place_`. -/
lemma tenTries_sound {rng : Nat → Nat × Nat} {stock : Grid} {pw ph W H : Nat} :
    ∀ {n k k2 : Nat} {pos : Nat × Nat},
      tenTries rng stock pw ph W H k n = (k2, some pos) →
      canPlace stock ((pos.1 : Int), (pos.2 : Int)) (pw, ph) = true := by
  intro n
  induction n with
  | zero => intro k k2 pos h; simp [tenTries] at h
  | succ m ih =>
    intro k k2 pos h
    by_cases hc : canPlace stock
        (((rng k).1 % (W - pw + 1) : Nat), ((rng k).2 % (H - ph + 1) : Nat)) (pw, ph) = true
    · simp only [tenTries, hc, if_true] at h
      cases h
      exact hc
    · simp only [tenTries, hc, if_false, Bool.false_eq_true] at h
      exact ih h

/-- A placement returned by `randGo` names a stock of the list and passes
`_can_place_` on it. -/
lemma randGo_sound (rng : Nat → Nat × Nat) (stocks : List Grid) :
    ∀ (combos : List (Nat × Nat × Nat)) (k : Nat) (p : Placement),
      randGo rng stocks combos k = .ok (some p) →
      canPlace (stocks.getD p.stockIdx []) p.position p.size = true := by
  intro combos
  induction combos with
  | nil => intro k p h; simp [randGo] at h
  | cons c rest ih =>
    obtain ⟨si, pw, ph⟩ := c
    intro k p h
    simp only [randGo] at h
    by_cases hfit : (stockSize (stocks.getD si [])).1 < pw ∨
        (stockSize (stocks.getD si [])).2 < ph
    · rw [if_pos hfit] at h
      exact absurd h (by simp)
    · rw [if_neg hfit] at h
      cases htt : tenTries rng (stocks.getD si []) pw ph
          (stockSize (stocks.getD si [])).1 (stockSize (stocks.getD si [])).2 k 10 with
      | mk k2 o =>
        rw [htt] at h
        cases o with
        | some pos =>
          simp only at h
          cases h
          exact tenTries_sound htt
        | none =>
          simp only at h
          exact ih k2 p h

/-- Every placement returned by the random fallback satisfies the no-overlap
invariant. -/
lemma randomValidAction_sound (rng : Nat → Nat × Nat) (obs : Observation)
    (allow : Bool) (p : Placement)
    (h : randomValidAction rng obs allow = .ok (some p)) : canPlaceP obs p :=
  randGo_sound rng obs.stocks (randCombos obs allow) 0 p h

/-- Folding preserves any invariant preserved by the step function. -/
lemma foldl_inv {α σ : Type} (P : σ → Prop) (f : σ → α → σ)
    (hstep : ∀ s a, P s → P (f s a)) :
    ∀ (l : List α) (s : σ), P s → P (l.foldl f s) := by
  intro l
  induction l with
  | nil => intro s hs; exact hs
  | cons a t ih => intro s hs; exact ih _ (hstep s a hs)

/-- One orientation attempt of `convert_action`: scale the coarse 5x5 cell to
stock coordinates (clamped by `stock_w - prod_w`, possibly negative), test
`_can_place_`, score with `evaluate_placement_pattern` (x1.1 for a successful
rotated orientation) and keep the strictly better candidate. -/
def convActOrient (stocks : List Grid) (stockIdx posX posY : Nat)
    (origSize : Nat × Nat) (b : Option (Placement × ℚ)) (psz : Nat × Nat) :
    Option (Placement × ℚ) :=
  let stock := stocks.getD stockIdx []
  let W := (stockSize stock).1
  let H := (stockSize stock).2
  let sx : Int := min ((posX * W / 5 : Nat) : Int) ((W : Int) - psz.1)
  let sy : Int := min ((posY * H / 5 : Nat) : Int) ((H : Int) - psz.2)
  if canPlace stock (sx, sy) psz then
    let sc0 := evalPlacementPattern stock sx sy psz.1 psz.2
    let sc := if psz ≠ origSize then sc0 * (11/10) else sc0
    match b with
    | none => some (⟨stockIdx, psz, (sx, sy)⟩, sc)
    | some (_, bs) => if bs < sc then some (⟨stockIdx, psz, (sx, sy)⟩, sc) else b
  else b

/-- Product loop body of `convert_action`: positive-quantity products try the
original then the rotated orientation. -/
def convActProd (stocks : List Grid) (stockIdx posX posY : Nat)
    (best : Option (Placement × ℚ)) (prod : Product) : Option (Placement × ℚ) :=
  if 0 < prod.quantity then
    [prod.size, (prod.size.2, prod.size.1)].foldl
      (convActOrient stocks stockIdx posX posY prod.size) best
  else best

/-- Learned action decoding `convert_action(action_idx, observation)`: strip
the rotation half, clamp the stock index, decode the coarse 5x5 position, keep
the best-scoring valid (product, orientation) pair, and fall back to
`_get_random_valid_action`. With an empty stock list and remaining demand the
source raises `IndexError` (`stocks[-1]` on an empty list). -/
def convertAction (rng : Nat → Nat × Nat) (actionIdx : Nat) (obs : Observation) :
    Except String (Option Placement) :=
  let maxStocks := obs.stocks.length
  let a := if maxStocks * 25 ≤ actionIdx then actionIdx - maxStocks * 25 else actionIdx
  let stockIdx := min (a / 25) (maxStocks - 1)
  let posX := a % 25 / 5
  let posY := a % 25 % 5
  if obs.stocks.isEmpty ∧ obs.products.any (fun pr => 0 < pr.quantity) then
    .error "IndexError"
  else
    match obs.products.foldl (convActProd obs.stocks stockIdx posX posY) none with
    | some (p, _) => .ok (some p)
    | none => randomValidAction rng obs true

/-- One decoder orientation step preserves the invariant that any accumulated
candidate names the decoded stock index and passes `_can_place_` on it. -/
lemma convActOrient_inv (stocks : List Grid) (stockIdx posX posY : Nat)
    (origSize : Nat × Nat) (b : Option (Placement × ℚ)) (psz : Nat × Nat)
    (hb : ∀ p sc, b = some (p, sc) →
      p.stockIdx = stockIdx ∧ canPlace (stocks.getD stockIdx []) p.position p.size = true) :
    ∀ p sc, convActOrient stocks stockIdx posX posY origSize b psz = some (p, sc) →
      p.stockIdx = stockIdx ∧ canPlace (stocks.getD stockIdx []) p.position p.size = true := by
  intro p sc h
  simp only [convActOrient] at h
  split at h
  next hc =>
    cases b with
    | none =>
      simp only at h
      cases h
      exact ⟨rfl, hc⟩
    | some q =>
      obtain ⟨bp, bs⟩ := q
      simp only at h
      split at h <;> split at h
      all_goals
        first
          | (cases h; exact ⟨rfl, hc⟩)
          | (exact hb p sc h)
  next hc => exact hb p sc h

/-- Candidates accumulated by the decoder's product loop name the decoded
stock index and pass `_can_place_` on it. -/
lemma convAct_inv (stocks : List Grid) (stockIdx posX posY : Nat)
    (prods : List Product) :
    ∀ p sc, prods.foldl (convActProd stocks stockIdx posX posY) none = some (p, sc) →
      p.stockIdx = stockIdx ∧ canPlace (stocks.getD stockIdx []) p.position p.size = true := by
  refine foldl_inv
    (fun s => ∀ (p : Placement) (sc : ℚ), s = some (p, sc) →
      p.stockIdx = stockIdx ∧ canPlace (stocks.getD stockIdx []) p.position p.size = true)
    _ ?_ prods none (by intro p sc h; cases h)
  intro s prod hs
  unfold convActProd
  by_cases hq : 0 < prod.quantity
  · rw [if_pos hq]
    exact foldl_inv _ _ (fun b psz hb =>
      convActOrient_inv stocks stockIdx posX posY prod.size b psz hb) _ s hs
  · rw [if_neg hq]
    exact hs

/-- Every placement returned by the learned action decoder satisfies the
no-overlap invariant. -/
lemma convertAction_sound (rng : Nat → Nat × Nat) (actionIdx : Nat)
    (obs : Observation) (p : Placement)
    (h : convertAction rng actionIdx obs = .ok (some p)) : canPlaceP obs p := by
  simp only [convertAction] at h
  split at h
  · exact absurd h (by simp)
  · split at h
    · rename_i q sc hfold
      have hqp : q = p := by simpa using h
      subst hqp
      obtain ⟨hidx, hcp⟩ := convAct_inv obs.stocks _ _ _ obs.products q sc hfold
      unfold canPlaceP
      rw [hidx]
      exact hcp
    · exact randomValidAction_sound rng obs true p h

/-- Stack-driven flood fill of `_get_empty_area_size`: pop a cell, skip it if
visited, otherwise count it and push its in-bounds empty unvisited
4-neighbours. The fuel argument strictly exceeds the number of loop
iterations ever needed (each of the at most W·H visits pushes at most four
cells), so it only makes the recursion structural. -/
def emptyAreaLoop (g : Grid) : Nat → List (Int × Int) → List (Int × Int) → Nat → Nat
  | 0, _, _, area => area
  | _ + 1, [], _, area => area
  | fuel + 1, c :: rest, visited, area =>
    if c ∈ visited then emptyAreaLoop g fuel rest visited area
    else
      let visited2 := c :: visited
      let W := (g.headD []).length
      let H := g.length
      let nbrs := [(c.1 - 1, c.2), (c.1 + 1, c.2), (c.1, c.2 - 1), (c.1, c.2 + 1)].filter
        (fun n => decide (0 ≤ n.1 ∧ n.1 < (W : Int) ∧ 0 ≤ n.2 ∧ n.2 < (H : Int)) &&
          (cellAt g n.1 n.2 == -1) && decide (¬ n ∈ visited2))
      emptyAreaLoop g fuel (nbrs ++ rest) visited2 (area + 1)

/-- Connected empty area size `_get_empty_area_size(stock, start_x, start_y)`:
0 when the start is out of bounds or occupied, otherwise the 4-connected
flood-fill size of its empty region. -/
def emptyAreaSize (g : Grid) (x y : Int) : Nat :=
  let W := (g.headD []).length
  let H := g.length
  if x < 0 ∨ y < 0 ∨ (W : Int) ≤ x ∨ (H : Int) ≤ y then 0
  else if cellAt g x y != -1 then 0
  else emptyAreaLoop g (5 * W * H + 5) [(x, y)] [] 0

/-- Empty cells above the footprint, `_count_gaps_above(stock, pos_x, pos_y,
width)`. -/
def countGapsAbove (g : Grid) (x y : Int) (w : Nat) : Nat :=
  (listJoin ((intRange x (x + w)).map (fun xx =>
    (intRange 0 y).map (fun yy => (xx, yy))))).foldl
    (fun acc c => if cellAt g c.1 c.2 == -1 then acc + 1 else acc) 0

/-- Isolation risk `_calculate_isolation_penalty`: count of the four
piece-offset neighbours whose connected empty region is smaller than the
piece itself. -/
def isolationPenaltyCount (g : Grid) (x y : Int) (pw ph : Nat) : Nat :=
  let W := (stockSize g).1
  let H := (stockSize g).2
  [((-1 : Int), (0 : Int)), (1, 0), (0, -1), (0, 1)].foldl
    (fun acc d =>
      let cx := x + d.1 * pw
      let cy := y + d.2 * ph
      if 0 ≤ cx ∧ cx < (W : Int) ∧ 0 ≤ cy ∧ cy < (H : Int) then
        let a := emptyAreaSize g cx cy
        if 0 < a ∧ a < pw * ph then acc + 1 else acc
      else acc) 0

/-- Small-gap count `_calculate_small_gap_penalty`: empty cells in a
2-cell-padded window whose connected empty region has size 1 to 3. -/
def smallGapPenaltyCount (g : Grid) (x y : Int) (pw ph : Nat) : Nat :=
  let W := (g.headD []).length
  let H := g.length
  (listJoin ((intRange (-2) ((pw : Int) + 2)).map (fun dx =>
    (intRange (-2) ((ph : Int) + 2)).map (fun dy => (dx, dy))))).foldl
    (fun acc d =>
      let cx := x + d.1
      let cy := y + d.2
      if 0 ≤ cx ∧ cx < (W : Int) ∧ 0 ≤ cy ∧ cy < (H : Int) then
        if cellAt g cx cy == -1 then
          let gsz := emptyAreaSize g cx cy
          if 0 < gsz ∧ gsz < 4 then acc + 1 else acc
        else acc
      else acc) 0

/-- Perfect-fit detection `_is_perfect_fit(stock, pos_x, pos_y, prod_w,
prod_h)`: at piece-extent offsets in the four axis directions, a fully
occupied opposing edge counts as one perfect fit and adds its (full) fraction
to the alignment quality; the result is `perfect_fits >= 2 or
alignment_quality >= 1.5`. -/
def isPerfectFit (g : Grid) (x y : Int) (pw ph : Nat) : Bool :=
  let W := (g.headD []).length
  let H := g.length
  let res := [((0 : Int), (1 : Int)), (0, -1), (1, 0), (-1, 0)].foldl
    (fun (acc : Nat × ℚ) d =>
      let cx := x + d.1 * pw
      let cy := y + d.2 * ph
      if 0 ≤ cx ∧ cx < (W : Int) ∧ 0 ≤ cy ∧ cy < (H : Int) then
        if d.1 ≠ 0 then
          let aligned := ((intRange y (y + ph)).filter (fun yy =>
            decide (0 ≤ cx ∧ cx < (W : Int)) && (cellAt g cx yy != -1))).length
          if aligned = ph then (acc.1 + 1, acc.2 + (aligned : ℚ) / (ph : ℚ)) else acc
        else if d.2 ≠ 0 then
          let aligned := ((intRange x (x + pw)).filter (fun xx =>
            decide (0 ≤ cy ∧ cy < (H : Int)) && (cellAt g xx cy != -1))).length
          if aligned = pw then (acc.1 + 1, acc.2 + (aligned : ℚ) / (pw : ℚ)) else acc
        else acc
      else acc) (0, 0)
  decide (2 ≤ res.1) || decide ((3/2 : ℚ) ≤ res.2)

/-- Greedy placement score `_calculate_placement_score(stock, pos_x, pos_y,
prod_w, prod_h, stock_w, stock_h)`. The float power `2.0 ** (adjacent_count -
1)` of the exponential adjacency bonus is the abstract parameter `pow2`. -/
def calcPlacementScore (pow2 : ℚ → ℚ) (g : Grid) (x y : Int)
    (pw ph W H : Nat) : ℚ :=
  let centerX := W / 2
  let centerY := H / 2
  let distToCenter : ℚ :=
    |(x : ℚ) + (pw : ℚ) / 2 - (centerX : ℚ)| + |(y : ℚ) + (ph : ℚ) / 2 - (centerY : ℚ)|
  let u : ℚ := (usedCells g : ℚ) / ((W * H : Nat) : ℚ)
  let base : ℚ :=
    if 0 < u then
      let ac := countAdjacentPieces g x y pw ph
      50
      + (if 2 ≤ ac then 60 * pow2 (ac - 1) else 30 * ac)
      + (if 3 ≤ ac then 100 else 0)
      + (if isPerfectFit g x y pw ph then 50 else 0)
      + (if u < 3/5 then max 0 (25 - distToCenter) else 0)
    else
      if u < 3/10 then
        if (x = 0 ∨ x + pw = (W : Int)) ∧ (y = 0 ∨ y + ph = (H : Int)) then 10
        else if x = 0 ∨ x + pw = (W : Int) ∨ y = 0 ∨ y + ph = (H : Int) then 5
        else 0
      else 0
  base - (countGapsAbove g x y pw : ℚ) * 15
    - (isolationPenaltyCount g x y pw ph : ℚ) * 20
    - (smallGapPenaltyCount g x y pw ph : ℚ) * 25

/-- State of the greedy search loop: attempts consumed, best candidate with
its score, and whether the attempt budget forced an early return. -/
structure GState where
  attempts : Nat
  best : Option (Placement × ℚ)
  halted : Bool

/-- Innermost loop body of `_get_greedy_action`: one position attempt. The
attempt counter is incremented, the budget check returns early, then a
placeable rectangle is scored (x1.05 for a rotated orientation with positive
score) and kept if strictly better. -/
def greedyPosStep (pow2 : ℚ → ℚ) (stockIdx : Nat) (stock : Grid)
    (orig pSize : Nat × Nat) (W H : Nat) (st : GState) (pos : Nat × Nat) : GState :=
  if st.halted then st
  else
    let att := st.attempts + 1
    if 1000 ≤ att then { attempts := att, best := st.best, halted := true }
    else
      if canPlace stock ((pos.1 : Int), (pos.2 : Int)) pSize then
        let sc0 := calcPlacementScore pow2 stock pos.1 pos.2 pSize.1 pSize.2 W H
        let sc := if pSize ≠ orig ∧ 0 < sc0 then sc0 * (21/20) else sc0
        match st.best with
        | none =>
          { attempts := att, best := some (⟨stockIdx, pSize, (pos.1, pos.2)⟩, sc),
            halted := false }
        | some (_, bs) =>
          if bs < sc then
            { attempts := att, best := some (⟨stockIdx, pSize, (pos.1, pos.2)⟩, sc),
              halted := false }
          else { attempts := att, best := st.best, halted := false }
      else { attempts := att, best := st.best, halted := false }

/-- Scan order of the position loops: `y` outermost. -/
def positionsFor (W H pw ph : Nat) : List (Nat × Nat) :=
  listJoin ((List.range (H - ph + 1)).map (fun yy =>
    (List.range (W - pw + 1)).map (fun xx => (xx, yy))))

/-- Stock loop body of `_get_greedy_action`: budget check at stock entry, skip
stocks that cannot fit the orientation, otherwise scan all positions. -/
def greedyStockStep (pow2 : ℚ → ℚ) (obs : Observation) (orig pSize : Nat × Nat)
    (st : GState) (stockIdx : Nat) : GState :=
  if st.halted then st
  else if 1000 ≤ st.attempts then { st with halted := true }
  else
    let stock := obs.stocks.getD stockIdx []
    let W := (stockSize stock).1
    let H := (stockSize stock).2
    if W < pSize.1 ∨ H < pSize.2 then st
    else (positionsFor W H pSize.1 pSize.2).foldl
      (greedyPosStep pow2 stockIdx stock orig pSize W H) st

/-- Orientation loop body: try every stock index in order. -/
def greedyOrientStep (pow2 : ℚ → ℚ) (obs : Observation) (orig : Nat × Nat)
    (st : GState) (pSize : Nat × Nat) : GState :=
  (List.range obs.stocks.length).foldl (greedyStockStep pow2 obs orig pSize) st

/-- Product loop body: original then rotated orientation. -/
def greedyProdStep (pow2 : ℚ → ℚ) (obs : Observation) (st : GState)
    (prod : Product) : GState :=
  [prod.size, (prod.size.2, prod.size.1)].foldl
    (greedyOrientStep pow2 obs prod.size) st

/-- Stable insertion of a product into a list sorted by area descending. -/
def insertByAreaDesc (p : Product) : List Product → List Product
  | [] => [p]
  | q :: qs =>
    if q.size.1 * q.size.2 ≤ p.size.1 * p.size.2 then p :: q :: qs
    else q :: insertByAreaDesc p qs

/-- Stable sort by area descending (`sorted(..., key=area, reverse=True)`). -/
def sortByAreaDesc : List Product → List Product
  | [] => []
  | p :: ps => insertByAreaDesc p (sortByAreaDesc ps)

/-- The positive-quantity products in the order the greedy search visits them. -/
def greedyProducts (obs : Observation) : List Product :=
  sortByAreaDesc (obs.products.filter (fun pr => decide (0 < pr.quantity)))

/-- Full greedy search loop state of `_get_greedy_action(observation)`. -/
def greedyRun (pow2 : ℚ → ℚ) (obs : Observation) : GState :=
  (greedyProducts obs).foldl (greedyProdStep pow2 obs) ⟨0, none, false⟩

/-- Greedy fallback `_get_greedy_action(observation)`: none when no product
remains, otherwise the best-scoring placement found within the budget. -/
def greedyAction (pow2 : ℚ → ℚ) (obs : Observation) : Option Placement :=
  if (greedyProducts obs).isEmpty then none
  else ((greedyRun pow2 obs).best).map Prod.fst

deriving instance DecidableEq for Except

/-- Any best candidate accumulated by the greedy loops satisfies the
no-overlap invariant. -/
def greedyBestInv (obs : Observation) (st : GState) : Prop :=
  ∀ (p : Placement) (sc : ℚ), st.best = some (p, sc) → canPlaceP obs p

/-- One greedy position attempt preserves the best-candidate invariant. -/
lemma greedyPosStep_inv (pow2 : ℚ → ℚ) (obs : Observation) (stockIdx : Nat)
    (orig pSize : Nat × Nat) (W H : Nat) (st : GState) (pos : Nat × Nat)
    (hst : greedyBestInv obs st) :
    greedyBestInv obs
      (greedyPosStep pow2 stockIdx (obs.stocks.getD stockIdx []) orig pSize W H st pos) := by
  intro p sc h
  simp only [greedyPosStep] at h
  split at h
  · exact hst p sc h
  · split at h
    · exact hst p sc h
    · split at h
      next hc =>
        cases hb : st.best with
        | none =>
          rw [hb] at h
          simp only at h
          cases h
          exact hc
        | some q =>
          obtain ⟨bp, bs⟩ := q
          rw [hb] at h
          simp only at h
          split at h <;> split at h
          all_goals
            first
              | (cases h; exact hc)
              | (exact hst p sc (hb ▸ h))
      next hc =>
        simp only at h
        exact hst p sc h

/-- One greedy stock scan preserves the best-candidate invariant. -/
lemma greedyStockStep_inv (pow2 : ℚ → ℚ) (obs : Observation)
    (orig pSize : Nat × Nat) (st : GState) (stockIdx : Nat)
    (hst : greedyBestInv obs st) :
    greedyBestInv obs (greedyStockStep pow2 obs orig pSize st stockIdx) := by
  simp only [greedyStockStep]
  split
  · exact hst
  · split
    · intro p sc h
      exact hst p sc h
    · split
      · exact hst
      · exact foldl_inv (greedyBestInv obs) _
          (fun s pos hs => greedyPosStep_inv pow2 obs stockIdx orig pSize _ _ s pos hs)
          _ st hst

/-- The greedy run's best candidate satisfies the no-overlap invariant. -/
lemma greedyRun_inv (pow2 : ℚ → ℚ) (obs : Observation) :
    greedyBestInv obs (greedyRun pow2 obs) := by
  unfold greedyRun
  refine foldl_inv (greedyBestInv obs) _ ?_ _ _ ?_
  · intro s prod hs
    unfold greedyProdStep
    refine foldl_inv (greedyBestInv obs) _ ?_ _ s hs
    intro s2 pSize hs2
    unfold greedyOrientStep
    exact foldl_inv (greedyBestInv obs) _
      (fun s3 stockIdx hs3 => greedyStockStep_inv pow2 obs prod.size pSize s3 stockIdx hs3)
      _ s2 hs2
  · intro p sc h
    cases h

/-- Every placement returned by the greedy fallback satisfies the no-overlap
invariant. -/
lemma greedyAction_sound (pow2 : ℚ → ℚ) (obs : Observation) (p : Placement)
    (h : greedyAction pow2 obs = some p) : canPlaceP obs p := by
  unfold greedyAction at h
  split at h
  · exact absurd h (by simp)
  · cases hb : (greedyRun pow2 obs).best with
    | none => rw [hb] at h; exact absurd h (by simp)
    | some q =>
      rw [hb] at h
      simp only [Option.map_some'] at h
      cases h
      exact greedyRun_inv pow2 obs q.1 q.2 (by rw [hb])

/-- Budget invariant of the greedy loop: a halted state stopped at exactly
1000 attempts, and a running state has consumed at most 999. -/
def budgetInv (st : GState) : Prop :=
  (st.halted = true → st.attempts = 1000) ∧ (st.halted = false → st.attempts ≤ 999)

/-- One greedy position attempt preserves the budget invariant. -/
lemma greedyPosStep_budget (pow2 : ℚ → ℚ) (stockIdx : Nat) (stock : Grid)
    (orig pSize : Nat × Nat) (W H : Nat) (st : GState) (pos : Nat × Nat)
    (hst : budgetInv st) :
    budgetInv (greedyPosStep pow2 stockIdx stock orig pSize W H st pos) := by
  obtain ⟨att, best, halted⟩ := st
  cases halted with
  | true => simpa [greedyPosStep] using hst
  | false =>
    obtain ⟨hh, hr⟩ := hst
    have hle : att ≤ 999 := hr rfl
    by_cases hbud : 1000 ≤ att + 1
    · simp [greedyPosStep, hbud]
      exact ⟨fun _ => by simp; omega, by simp⟩
    · have h9 : att + 1 ≤ 999 := by omega
      simp [greedyPosStep, hbud]
      repeat' split
      all_goals exact ⟨by simp, fun _ => by simp; omega⟩

/-- One greedy stock scan preserves the budget invariant. -/
lemma greedyStockStep_budget (pow2 : ℚ → ℚ) (obs : Observation)
    (orig pSize : Nat × Nat) (st : GState) (stockIdx : Nat)
    (hst : budgetInv st) :
    budgetInv (greedyStockStep pow2 obs orig pSize st stockIdx) := by
  obtain ⟨att, best, halted⟩ := st
  cases halted with
  | true => simpa [greedyStockStep] using hst
  | false =>
    obtain ⟨hh, hr⟩ := hst
    have hle : att ≤ 999 := hr rfl
    have hbud : ¬ 1000 ≤ att := by omega
    simp only [greedyStockStep]
    rw [if_neg (by simp)]
    rw [if_neg hbud]
    split
    · exact ⟨hh, hr⟩
    · exact foldl_inv budgetInv _
        (fun s2 pos hs2 => greedyPosStep_budget pow2 stockIdx _ orig pSize _ _ s2 pos hs2)
        _ _ ⟨hh, hr⟩

/-- The full greedy run respects the budget invariant. -/
lemma greedyRun_budget (pow2 : ℚ → ℚ) (obs : Observation) :
    budgetInv (greedyRun pow2 obs) := by
  unfold greedyRun
  refine foldl_inv budgetInv _ ?_ _ _ ⟨by simp, fun _ => by simp⟩
  intro s prod hs
  unfold greedyProdStep
  refine foldl_inv budgetInv _ ?_ _ s hs
  intro s2 pSize hs2
  unfold greedyOrientStep
  exact foldl_inv budgetInv _
    (fun s3 stockIdx hs3 => greedyStockStep_budget pow2 obs prod.size pSize s3 stockIdx hs3)
    _ s2 hs2

/-- C5: the greedy fallback performs at most 1000 placement attempts for every
observation and every instantiation of the float power, and what it returns is
exactly the projection of the best-so-far candidate of the final loop state
(none when no positive-quantity product exists) — in particular the best valid
placement found so far is returned when the budget halts the scan. Being a
total function of the observation, the search always terminates within this
budget. -/
theorem c5_greedy_budget :
    ∀ (pow2 : ℚ → ℚ) (obs : Observation),
      (greedyRun pow2 obs).attempts ≤ 1000 ∧
      greedyAction pow2 obs =
        (if (greedyProducts obs).isEmpty then none
         else ((greedyRun pow2 obs).best).map Prod.fst) := by
  intro pow2 obs
  obtain ⟨hh, hr⟩ := greedyRun_budget pow2 obs
  refine ⟨?_, rfl⟩
  cases hc : (greedyRun pow2 obs).halted with
  | true => have := hh hc; omega
  | false => have := hr hc; omega

/-- C1: every placement returned by any placement strategy — structured
placement, greedy search, the learned action decoder, or the random fallback —
satisfies `can_place` on the stock it names (in bounds and over empty cells
only), because every return path is guarded by exactly that check. -/
theorem c1_all_strategies_can_place :
    (∀ (obs : Observation) (p : Placement),
       structuredPlacement obs = some p → canPlaceP obs p) ∧
    (∀ (pow2 : ℚ → ℚ) (obs : Observation) (p : Placement),
       greedyAction pow2 obs = some p → canPlaceP obs p) ∧
    (∀ (rng : Nat → Nat × Nat) (actionIdx : Nat) (obs : Observation) (p : Placement),
       convertAction rng actionIdx obs = .ok (some p) → canPlaceP obs p) ∧
    (∀ (rng : Nat → Nat × Nat) (obs : Observation) (allow : Bool) (p : Placement),
       randomValidAction rng obs allow = .ok (some p) → canPlaceP obs p) :=
  ⟨structuredPlacement_sound,
   greedyAction_sound,
   convertAction_sound,
   randomValidAction_sound⟩

/-- Concrete instantiation of the abstract float power used by witnesses. -/
def pow2W : ℚ → ℚ := fun _ => 0

/-- Concrete random stream used by witnesses. -/
def rngW : Nat → Nat × Nat := fun _ => (0, 0)

/-- A single empty 1x2 stock with one 1x2 product: every strategy places it at
the origin. -/
def obsW : Observation := ⟨[[[-1], [-1]]], [⟨(1, 2), 1⟩]⟩

/-- Witness for C1: each strategy concretely returns the origin placement on
`obsW`, and the invariant instantiates there. -/
theorem c1_all_strategies_witness :
    canPlaceP obsW ⟨0, (1, 2), (0, 0)⟩ ∧ canPlaceP obsW ⟨0, (1, 2), (0, 0)⟩ ∧
    canPlaceP obsW ⟨0, (1, 2), (0, 0)⟩ ∧ canPlaceP obsW ⟨0, (1, 2), (0, 0)⟩ :=
  ⟨c1_all_strategies_can_place.1 obsW ⟨0, (1, 2), (0, 0)⟩ (by decide),
   c1_all_strategies_can_place.2.1 pow2W obsW ⟨0, (1, 2), (0, 0)⟩ (by decide),
   c1_all_strategies_can_place.2.2.1 rngW 0 obsW ⟨0, (1, 2), (0, 0)⟩ (by decide),
   c1_all_strategies_can_place.2.2.2 rngW obsW true ⟨0, (1, 2), (0, 0)⟩ (by decide)⟩

/-- Experience buffer `PPOMemory`: six parallel append-only lists. -/
structure PPOMemoryS where
  states : List (List ℚ)
  actions : List Nat
  rewards : List ℚ
  values : List ℚ
  logProbs : List ℚ
  dones : List Bool
deriving DecidableEq, Repr

/-- Fresh (or cleared) buffer. -/
def emptyMemory : PPOMemoryS := ⟨[], [], [], [], [], []⟩

/-- `PPOMemory.add(state, action, reward, value, log_prob, done)`. -/
def memAdd (m : PPOMemoryS) (st : List ℚ) (a : Nat) (r v lp : ℚ) (dn : Bool) :
    PPOMemoryS :=
  ⟨m.states ++ [st], m.actions ++ [a], m.rewards ++ [r],
   m.values ++ [v], m.logProbs ++ [lp], m.dones ++ [dn]⟩

/-- Rewrite of the last entry of a list (`xs[-1] = a`); callers guard
non-emptiness as the source does. -/
def setLast {α : Type} (l : List α) (a : α) : List α :=
  match l with
  | [] => []
  | _ :: _ => l.dropLast ++ [a]

/-- Mutable policy state of `ProximalPolicyOptimization`: the lazily fixed
product dimension, demand counters, step counter, training flag, experience
buffer, running normalizer statistics and observational metrics. The neural
networks and optimizers are abstracted: `netUpdates` counts the executions of
the loss-computing body of `_update_networks`. -/
structure PolicyState where
  maxProducts : Option Nat
  initialProducts : Nat
  prevTotalProducts : Nat
  steps : Nat
  training : Bool
  memory : PPOMemoryS
  stateMean : List ℚ
  stateStd : List ℚ
  netUpdates : Nat
  metricsFilledWindow : List ℚ
deriving DecidableEq, Repr

/-- State of a freshly constructed policy (`__init__`). -/
def ppoInit : PolicyState :=
  ⟨none, 0, 0, 0, true, emptyMemory, [], [], 0, []⟩

/-- Total remaining demand `sum(prod["quantity"] for prod in products)`. -/
def totalQuantity (obs : Observation) : Nat :=
  (obs.products.map (fun pr => pr.quantity)).sum

/-- One-time lazy initialisation `initialize_networks(observation)`: on the
first observation fix the product dimension, record the initial total demand,
and reset the running normalizer to zero mean and unit deviation of dimension
`100*3 + max_products*3 + 2`. -/
def initNetworks (s : PolicyState) (obs : Observation) : PolicyState :=
  if s.maxProducts = none then
    let mp := obs.products.length
    let ip := totalQuantity obs
    let dim := 100 * 3 + mp * 3 + 2
    { s with
      maxProducts := some mp,
      initialProducts := ip,
      prevTotalProducts := ip,
      stateMean := List.replicate dim 0,
      stateStd := List.replicate dim 1 }
  else s

/-- State encoding `preprocess_observation(observation, info)`: three features
per stock for the first 100 stocks zero-padded to 300, three features per
positive-quantity product zero-padded to `max_products*3`, then the filled
ratio from `info` and the normalized step count. -/
def preprocessObservation (s : PolicyState) (obs : Observation)
    (infoFilled : ℚ) : List ℚ :=
  let stockFeats := listJoin ((obs.stocks.take 100).map (fun stock =>
    let W := (stockSize stock).1
    let H := (stockSize stock).2
    [(W : ℚ) / 10, (H : ℚ) / 10, (usedCells stock : ℚ) / ((W * H : Nat) : ℚ)]))
  let stockFeats :=
    if stockFeats.length < 300
    then stockFeats ++ List.replicate (300 - stockFeats.length) 0 else stockFeats
  let mp := s.maxProducts.getD 0
  let prodFeats := listJoin ((obs.products.take mp).map (fun pr =>
    if 0 < pr.quantity then
      [(pr.size.1 : ℚ) / 10, (pr.size.2 : ℚ) / 10, ((min pr.quantity 10 : Nat) : ℚ) / 10]
    else []))
  let prodFeats :=
    if prodFeats.length < mp * 3
    then prodFeats ++ List.replicate (mp * 3 - prodFeats.length) 0 else prodFeats
  stockFeats ++ prodFeats ++ [infoFilled, (s.steps : ℚ) / 1000]

/-- Feature-wise normalisation `normalize_state(state)`:
`(state - state_mean) / (state_std + 1e-8)`. -/
def normalizeState (s : PolicyState) (st : List ℚ) : List ℚ :=
  List.zipWith (fun x ms => (x - ms.1) / (ms.2 + 1/100000000)) st
    (s.stateMean.zip s.stateStd)

/-- Stock selection `find_best_fitting_stock(observation, product_size)`:
prefer the partially filled stock with utilization < 0.8 maximising
`100 + (0.8 - u)*50` (first maximum kept), else the first untouched stock.
The `product_size` argument of the source only feeds an unused local variable
and is therefore omitted. -/
def findBestFittingStock (obs : Observation) : Option Nat :=
  let idxs := List.range obs.stocks.length
  let best := idxs.foldl
    (fun (acc : Option (Nat × ℚ)) i =>
      let g := obs.stocks.getD i []
      let area := (stockSize g).1 * (stockSize g).2
      if 0 < usedCells g ∧ usedCells g < area then
        let u : ℚ := (usedCells g : ℚ) / (area : ℚ)
        if u < 4/5 then
          let score : ℚ := 100 + (4/5 - u) * 50
          match acc with
          | none => some (i, score)
          | some (_, bs) => if bs < score then some (i, score) else acc
        else acc
      else acc) none
  match best with
  | some (i, _) => some i
  | none => (idxs.filter (fun i => usedCells (obs.stocks.getD i []) = 0)).head?

/-- Decision procedure `get_action(observation, info)`. The actor/critic
forward passes, the preferred-stock logit boost, the temperature schedule and
the categorical sampling are floating-point neural-network computations
abstracted as the `oracle` parameter, which receives the normalized state, the
preferred stock index and the step counter and produces the sampled action
index, the critic value and the sampled action's log-probability; every
theorem about `getAction` holds for all oracles. When no product remains (or
no best-fitting stock exists) the source never assigns the local `action`
and `self.convert_action(action.item(), observation)` raises
`UnboundLocalError`; that error is the `.error` result. -/
def getAction (pow2 : ℚ → ℚ) (rng : Nat → Nat × Nat)
    (oracle : List ℚ → Nat → Nat → Nat × ℚ × ℚ)
    (s : PolicyState) (obs : Observation) (infoFilled : ℚ) :
    Except String (Option Placement) × PolicyState :=
  let s1 := initNetworks s obs
  let remaining := totalQuantity obs
  let structTry : Option Placement :=
    if s1.steps < 2000 ∨ (7/10 : ℚ) * (s1.initialProducts : ℚ) < (remaining : ℚ)
    then structuredPlacement obs else none
  match structTry with
  | some p => (.ok (some p), s1)
  | none =>
    let afterSample : PolicyState × Option Nat :=
      match largestProduct obs.products with
      | none => (s1, none)
      | some _ =>
        match findBestFittingStock obs with
        | none => (s1, none)
        | some bi =>
          let raw := preprocessObservation s1 obs infoFilled
          let stN := normalizeState s1 raw
          let (a, v, lgp) := oracle stN bi s1.steps
          let s2 :=
            if s1.training
            then { s1 with memory := memAdd s1.memory stN a 0 v lgp false } else s1
          (s2, some a)
    match afterSample.2 with
    | none => (.error "UnboundLocalError", afterSample.1)
    | some a =>
      match convertAction rng a obs with
      | .error e => (.error e, afterSample.1)
      | .ok placeOpt =>
        let finalPlace :=
          match placeOpt with
          | some p => some p
          | none => greedyAction pow2 obs
        (.ok finalPlace, { afterSample.1 with steps := afterSample.1.steps + 1 })

/-- Guarded body of `_update_networks`: without training or with an empty
buffer it returns immediately; otherwise the ten-epoch loss/optimizer loop
(floating-point tensor computation) runs once, modelled as the `netUpdates`
counter increment. -/
def updateNetworksStep (s : PolicyState) : PolicyState :=
  if s.training = false ∨ s.memory.states.length = 0 then s
  else { s with netUpdates := s.netUpdates + 1 }

/-- Outcome rewrite phase of `update_policy` (lines 412-420): with a reward
and a non-empty buffer, overwrite the last buffered reward and done flag, and
overwrite the last recorded filled-ratio metric when the info carries an
observation and the window is non-empty. -/
def rewriteLastOutcome (s : PolicyState) (reward : Option ℚ) (done : Bool)
    (infoObs : Option Observation) : PolicyState :=
  match reward with
  | none => s
  | some r =>
    if 0 < s.memory.rewards.length then
      let m2 := { s.memory with
        rewards := setLast s.memory.rewards r,
        dones := setLast s.memory.dones done }
      let sA := { s with memory := m2 }
      match infoObs with
      | some o =>
        if 0 < sA.metricsFilledWindow.length then
          { sA with metricsFilledWindow := setLast sA.metricsFilledWindow (filledRatioOf o) }
        else sA
      | none => sA
    else s

/-- Update entry point `update_policy(reward, done, info)`: rewrite the last
outcome, then, once the buffer holds at least 128 entries, run
`_update_networks` and clear the buffer. -/
def updatePolicy (s : PolicyState) (reward : Option ℚ) (done : Bool)
    (infoObs : Option Observation) : PolicyState :=
  let s1 := rewriteLastOutcome s reward done infoObs
  if 128 ≤ s1.memory.states.length then
    { updateNetworksStep s1 with memory := emptyMemory }
  else s1

/-- The rewrite phase never changes the buffered states, the update counter or
the training flag. -/
lemma rewriteLastOutcome_frame (s : PolicyState) (reward : Option ℚ)
    (done : Bool) (infoObs : Option Observation) :
    (rewriteLastOutcome s reward done infoObs).memory.states = s.memory.states ∧
    (rewriteLastOutcome s reward done infoObs).netUpdates = s.netUpdates ∧
    (rewriteLastOutcome s reward done infoObs).training = s.training := by
  cases reward with
  | none => exact ⟨rfl, rfl, rfl⟩
  | some r =>
    simp only [rewriteLastOutcome]
    repeat' split
    all_goals exact ⟨rfl, rfl, rfl⟩

/-- C6: the PPO update triggers exactly at buffer length ≥ 128 — the buffer is
cleared to length 0 and (when training) the loss-computing update body runs
once; below 128 the buffer length and the update counter are untouched; and
calling the update entry point on an entirely empty buffer is a no-op leaving
the whole state unchanged. -/
theorem c6_update_trigger :
    ∀ (s : PolicyState) (reward : Option ℚ) (done : Bool) (infoObs : Option Observation),
      (128 ≤ s.memory.states.length →
        (updatePolicy s reward done infoObs).memory = emptyMemory ∧
        (s.training = true →
          (updatePolicy s reward done infoObs).netUpdates = s.netUpdates + 1)) ∧
      (s.memory.states.length < 128 →
        (updatePolicy s reward done infoObs).memory.states.length =
          s.memory.states.length ∧
        (updatePolicy s reward done infoObs).netUpdates = s.netUpdates) ∧
      (s.memory = emptyMemory → updatePolicy s reward done infoObs = s) := by
  intro s reward done infoObs
  obtain ⟨hst, hnet, htr⟩ := rewriteLastOutcome_frame s reward done infoObs
  refine ⟨?_, ?_, ?_⟩
  · intro h128
    unfold updatePolicy
    rw [if_pos (by rw [hst]; exact h128)]
    refine ⟨rfl, ?_⟩
    intro htrain
    unfold updateNetworksStep
    rw [if_neg ?_]
    · simp [hnet]
    · rw [htr, hst, htrain]
      intro hor
      rcases hor with h1 | h2
      · exact absurd h1 (by simp)
      · omega
  · intro h128
    unfold updatePolicy
    rw [if_neg (by rw [hst]; omega)]
    exact ⟨by rw [hst], hnet⟩
  · intro hempty
    have hrw : rewriteLastOutcome s reward done infoObs = s := by
      cases reward with
      | none => rfl
      | some r =>
        simp only [rewriteLastOutcome]
        rw [if_neg (by rw [hempty]; simp [emptyMemory])]
    unfold updatePolicy
    rw [hrw, if_neg (by rw [hempty]; simp [emptyMemory])]

/-- Buffer holding 128 degenerate entries, for instantiating the update
trigger. -/
def mem128 : PPOMemoryS :=
  ⟨List.replicate 128 [], List.replicate 128 0, List.replicate 128 0,
   List.replicate 128 0, List.replicate 128 0, List.replicate 128 false⟩

/-- Policy state whose buffer holds 128 entries. -/
def s128 : PolicyState := { ppoInit with memory := mem128 }

/-- Witness for C6 at a 128-entry buffer: the triggered update clears it. -/
theorem c6_update_trigger_witness :
    (updatePolicy s128 (some 5) true none).memory = emptyMemory :=
  ((c6_update_trigger s128 (some 5) true none).1
    (by simp [s128, mem128, ppoInit])).1

/-- The spec's end-to-end scenario: a single fully empty 10x10 stock and one
4x4 product with quantity 1. -/
def obsA : Observation := ⟨[emptyGrid 10], [⟨(4, 4), 1⟩]⟩

/-- The stock of `obsA` after the 4x4 product is placed at the origin. -/
def gridAfter : Grid :=
  List.replicate 4 ([0, 0, 0, 0, -1, -1, -1, -1, -1, -1] : List Int) ++
  List.replicate 6 (List.replicate 10 (-1 : Int))

/-- The subsequent observation: every product's remaining quantity is 0. -/
def obsB : Observation := ⟨[gridAfter], [⟨(4, 4), 0⟩]⟩

/-- C2 (failing-input evaluation): on the first decision the structured
strategy returns `{stock_idx: 0, size: (4,4), position: (0,0)}` as claimed,
but on the subsequent decision with all quantities 0 `get_action` does not
return none: no product remains, so the local `action` is never assigned and
`self.convert_action(action.item(), observation)` raises `UnboundLocalError`
— for every oracle, random stream and float-power instantiation. -/
theorem c2_end_to_end_eval :
    ∀ (pow2 : ℚ → ℚ) (rng : Nat → Nat × Nat)
      (oracle : List ℚ → Nat → Nat → Nat × ℚ × ℚ),
      (getAction pow2 rng oracle ppoInit obsA 0).1 =
        .ok (some ⟨0, (4, 4), (0, 0)⟩) ∧
      (getAction pow2 rng oracle
          (getAction pow2 rng oracle ppoInit obsA 0).2 obsB 0).1 =
        .error "UnboundLocalError" := by
  intro pow2 rng oracle
  constructor <;> rfl

/-- C10: whenever the warm-up condition holds and the structured strategy
produces a placement, `get_action` returns it immediately: no experience tuple
is appended and the step counter is not incremented (the one-time dimension
initialisation touches neither). -/
theorem c10_structured_frame :
    ∀ (pow2 : ℚ → ℚ) (rng : Nat → Nat × Nat)
      (oracle : List ℚ → Nat → Nat → Nat × ℚ × ℚ)
      (s : PolicyState) (obs : Observation) (infoFilled : ℚ) (p : Placement),
      ((initNetworks s obs).steps < 2000 ∨
        (7/10 : ℚ) * ((initNetworks s obs).initialProducts : ℚ) <
          (totalQuantity obs : ℚ)) →
      structuredPlacement obs = some p →
      getAction pow2 rng oracle s obs infoFilled = (.ok (some p), initNetworks s obs) ∧
      (initNetworks s obs).memory = s.memory ∧
      (initNetworks s obs).steps = s.steps := by
  intro pow2 rng oracle s obs infoFilled p hcond hstruct
  refine ⟨?_, ?_, ?_⟩
  · simp only [getAction]
    rw [if_pos hcond, hstruct]
  · unfold initNetworks
    split <;> rfl
  · unfold initNetworks
    split <;> rfl

/-- Concrete oracle used by witnesses. -/
def oracleW : List ℚ → Nat → Nat → Nat × ℚ × ℚ := fun _ _ _ => (0, 0, 0)

/-- Witness for C10 on the end-to-end scenario's first decision. -/
theorem c10_structured_frame_witness :
    getAction pow2W rngW oracleW ppoInit obsA 0 =
      (.ok (some ⟨0, (4, 4), (0, 0)⟩), initNetworks ppoInit obsA) ∧
    (initNetworks ppoInit obsA).memory = ppoInit.memory ∧
    (initNetworks ppoInit obsA).steps = ppoInit.steps :=
  c10_structured_frame pow2W rngW oracleW ppoInit obsA 0 ⟨0, (4, 4), (0, 0)⟩
    (by decide) (by decide)

/-- Scalar mean of a vector, `state.mean()` of torch over the whole tensor. -/
noncomputable def vecMean (xs : List ℝ) : ℝ := xs.sum / (xs.length : ℝ)

/-- Scalar standard deviation of a vector, `state.std()` of torch over the
whole tensor (Bessel-corrected, denominator `n - 1`). -/
noncomputable def vecStd (xs : List ℝ) : ℝ :=
  Real.sqrt ((xs.map (fun x => (x - vecMean xs) ^ 2)).sum / ((xs.length : ℝ) - 1))

/-- Running-normalizer update `update_state_normalizer(state)`:
`state_mean = 0.99 * state_mean + 0.01 * state.mean()` and
`state_std = 0.99 * state_std + 0.01 * state.std()` — the correction added to
every component of the per-feature vectors is the broadcast scalar
mean/deviation of the whole new state vector. -/
noncomputable def updateStateNormalizer (mean std state : List ℝ) :
    List ℝ × List ℝ :=
  (mean.map (fun m => (99/100) * m + (1/100) * vecMean state),
   std.map (fun sd => (99/100) * sd + (1/100) * vecStd state))

/-- C8 counterexample: with per-feature means (0, 0) and new state (0, 2) the
claim predicts the new mean vector (0.99·0 + 0.01·0, 0.99·0 + 0.01·2) =
(0, 0.02), but the code adds the same scalar mean 1 of the whole vector to
both features, giving (0.01, 0.01). -/
theorem c8_per_feature_cex :
    (updateStateNormalizer [0, 0] [1, 1] [0, 2]).1 = [1/100, 1/100] ∧
    (updateStateNormalizer [0, 0] [1, 1] [0, 2]).1 ≠ [0, 2/100] := by
  have hm : vecMean [0, 2] = 1 := by
    simp [vecMean]
  constructor
  · simp [updateStateNormalizer, hm]
  · simp [updateStateNormalizer, hm]

/-- Mapping then indexing below the length is indexing then applying. -/
lemma getD_map_real (g : ℝ → ℝ) :
    ∀ (l : List ℝ) (i : Nat), i < l.length → (l.map g).getD i 0 = g (l.getD i 0) := by
  intro l
  induction l with
  | nil => intro i hi; simp at hi
  | cons a t ih =>
    intro i hi
    cases i with
    | zero => rfl
    | succ n => simpa using ih n (by simpa using hi)

/-- C8 as amended: after each observation encoding, every feature's mean
becomes 0.99 times its old value plus 0.01 times the scalar mean of the entire
new state vector, and every feature's standard deviation becomes 0.99 times
its old value plus 0.01 times the scalar standard deviation of the entire
vector — the same scalar statistic for all features, not the feature's own
value/statistic. -/
theorem c8_scalar_update :
    ∀ (mean std st : List ℝ) (i : Nat), i < mean.length → i < std.length →
      (updateStateNormalizer mean std st).1.getD i 0 =
        (99/100) * mean.getD i 0 + (1/100) * vecMean st ∧
      (updateStateNormalizer mean std st).2.getD i 0 =
        (99/100) * std.getD i 0 + (1/100) * vecStd st := by
  intro mean std st i h1 h2
  constructor
  · simpa [updateStateNormalizer] using
      getD_map_real (fun m => (99/100) * m + (1/100) * vecMean st) mean i h1
  · simpa [updateStateNormalizer] using
      getD_map_real (fun sd => (99/100) * sd + (1/100) * vecStd st) std i h2

/-- Witness for C8 at the counterexample's input, feature index 1. -/
theorem c8_scalar_update_witness :
    (updateStateNormalizer [0, 0] [1, 1] [0, 2]).1.getD 1 0 =
      (99/100) * ([0, 0] : List ℝ).getD 1 0 + (1/100) * vecMean [0, 2] ∧
    (updateStateNormalizer [0, 0] [1, 1] [0, 2]).2.getD 1 0 =
      (99/100) * ([1, 1] : List ℝ).getD 1 0 + (1/100) * vecStd [0, 2] :=
  c8_scalar_update [0, 0] [1, 1] [0, 2] 1 (by simp) (by simp)

/-- Checkpoint bundle as read back by `torch.load`: a dict in which each of
the six entries written by `save_model` may be present (`some`, modelled as a
parameter vector whose length is its shape) or missing — subscripting a
missing key raises `KeyError`, so a well-unpickled but incomplete bundle is a
"corrupt bundle" failure too. -/
structure Checkpoint where
  actorP : Option (List ℚ)
  criticP : Option (List ℚ)
  actorOptP : Option (List ℚ)
  criticOptP : Option (List ℚ)
  meanP : Option (List ℚ)
  stdP : Option (List ℚ)
deriving DecidableEq, Repr

/-- In-memory network state touched by `load_model`. -/
structure NetState where
  actor : List ℚ
  critic : List ℚ
  actorOpt : List ℚ
  criticOpt : List ℚ
  mean : List ℚ
  std : List ℚ
deriving DecidableEq, Repr

/-- Checkpoint restore `load_model(filename)`: `torch.load` failure (missing
file or unreadable bundle) is the `none` case; then, in source order, each
statement first subscripts the dict (`KeyError` when the key is missing) and
then `load_state_dict` raises on a shape mismatch; the blanket `except` turns
any of these into `False` with every assignment already executed left in
place. The `state_mean`/`state_std` lines are plain assignments: they can only
fail at the subscript, `state_mean` before `state_mean` is assigned and
`state_std` after it. -/
def loadModel (s : NetState) (ckpt : Option Checkpoint) : Bool × NetState :=
  match ckpt with
  | none => (false, s)
  | some c =>
    match c.actorP with
    | none => (false, s)
    | some ap =>
      if ap.length ≠ s.actor.length then (false, s)
      else
        let s1 := { s with actor := ap }
        match c.criticP with
        | none => (false, s1)
        | some cp =>
          if cp.length ≠ s1.critic.length then (false, s1)
          else
            let s2 := { s1 with critic := cp }
            match c.actorOptP with
            | none => (false, s2)
            | some aop =>
              if aop.length ≠ s2.actorOpt.length then (false, s2)
              else
                let s3 := { s2 with actorOpt := aop }
                match c.criticOptP with
                | none => (false, s3)
                | some cop =>
                  if cop.length ≠ s3.criticOpt.length then (false, s3)
                  else
                    let s4 := { s3 with criticOpt := cop }
                    match c.meanP with
                    | none => (false, s4)
                    | some mp =>
                      let s5 := { s4 with mean := mp }
                      match c.stdP with
                      | none => (false, s5)
                      | some sp => (true, { s5 with std := sp })

/-- Two-parameter actor with a one-parameter critic in the checkpoint: the
actor loads, then the critic's shape mismatch aborts the load. -/
def netS0 : NetState := ⟨[0, 0], [0, 0], [0], [0], [0], [0]⟩

/-- Checkpoint whose actor parameters fit `netS0` but whose critic parameters
do not. -/
def ckptBad : Checkpoint :=
  ⟨some [1, 1], some [1], some [0], some [0], some [0], some [0]⟩

/-- Corrupt bundle missing the `state_mean` key: all four `load_state_dict`
steps succeed (and overwrite), then `checkpoint['state_mean']` raises
`KeyError`. -/
def ckptNoMean : Checkpoint :=
  ⟨some [1, 1], some [1, 1], some [2], some [3], none, some [4]⟩

/-- C9 counterexample: a failed load reports `false` but does not leave the
in-memory state exactly as it was — a critic shape mismatch leaves the actor
overwritten, and a corrupt bundle missing `state_mean` leaves even the
critic-optimizer state overwritten. -/
theorem c9_partial_overwrite_cex :
    (loadModel netS0 (some ckptBad)).1 = false ∧
    (loadModel netS0 (some ckptBad)).2 ≠ netS0 ∧
    (loadModel netS0 (some ckptNoMean)).1 = false ∧
    (loadModel netS0 (some ckptNoMean)).2.criticOpt ≠ netS0.criticOpt := by
  refine ⟨?_, ?_, ?_, ?_⟩ <;> decide

/-- C9 as amended: a failed load returns `false` instead of raising; a failure
of the initial `torch.load` (missing file, unreadable bundle) leaves the state
untouched; and any failure leaves the normalizer's std vector untouched,
because `state_std` is assigned last. Nothing more survives: everything
assigned before the failing step — actor, critic, both optimizer states, and
even `state_mean` when only `state_std` is missing — remains overwritten, as
the counterexample shows. -/
theorem c9_load_failure_behavior :
    (∀ s : NetState, loadModel s none = (false, s)) ∧
    (∀ (s : NetState) (c : Checkpoint),
      (loadModel s (some c)).1 = false →
        (loadModel s (some c)).2.std = s.std) := by
  refine ⟨fun s => rfl, ?_⟩
  intro s c h
  simp only [loadModel] at h ⊢
  cases hA : c.actorP with
  | none => simp [hA]
  | some ap =>
    simp only [hA] at h ⊢
    by_cases h1 : ap.length ≠ s.actor.length
    · rw [if_pos h1]
    · rw [if_neg h1] at h ⊢
      cases hC : c.criticP with
      | none => simp [hC]
      | some cp =>
        simp only [hC] at h ⊢
        by_cases h2 : cp.length ≠ s.critic.length
        · rw [if_pos h2]
        · rw [if_neg h2] at h ⊢
          cases hAO : c.actorOptP with
          | none => simp [hAO]
          | some aop =>
            simp only [hAO] at h ⊢
            by_cases h3 : aop.length ≠ s.actorOpt.length
            · rw [if_pos h3]
            · rw [if_neg h3] at h ⊢
              cases hCO : c.criticOptP with
              | none => simp [hCO]
              | some cop =>
                simp only [hCO] at h ⊢
                by_cases h4 : cop.length ≠ s.criticOpt.length
                · rw [if_pos h4]
                · rw [if_neg h4] at h ⊢
                  cases hM : c.meanP with
                  | none => simp [hM]
                  | some mp =>
                    simp only [hM] at h ⊢
                    cases hS : c.stdP with
                    | none => simp [hS]
                    | some sp =>
                      simp only [hS] at h
                      exact absurd h (by simp)

/-- Witness for C9's amended behaviour at the counterexample's failing load. -/
theorem c9_load_failure_witness :
    (loadModel netS0 (some ckptBad)).2.std = netS0.std :=
  c9_load_failure_behavior.2 netS0 ckptBad (by decide)
